import Mathlib

/-!
# xoshiro stream pool: embedding of `rng.hpp`, `cpp11.hpp` and `distr/uniform.hpp`

Shallow embedding of the class `xoshiro::prng<T>` (`inst/include/xoshiro/rng.hpp`), of the
seed adapter `xoshiro::cpp11::as_rng_seed<T>` (`inst/include/xoshiro/cpp11.hpp`) and of
`xoshiro::distr::runif<real_t>` (`inst/include/xoshiro/distr/uniform.hpp`).

Conventions.
* A `uint64_t` word is a `Nat`; the code shown performs no arithmetic on words, only copies.
* `rng_state_t<T>::size()` is the state width `W`, a parameter.
* `rng/xoshiro.hpp` is not part of the sources at hand, so `xoshiro_jump`, `xoshiro_long_jump`
  and `xoshiro_initial_seed` are parameters of the definitions that call them.
* `std::vector` is a `List`; `push_back` appends at the end.
* A `for (size_t i = 0; i < n; ++i)` loop is a left fold of its body over `List.range n`.
* `real_t` is a type parameter `R` of `runif`, as in the template, and its `*`, `-`, `+` are
  passed in as `real_ops R`. The instance `double` is modelled by `binary64`, with rounding.
-/

namespace xoshiro

/-! ## State vector -/

/-- State register `rng_state_t<T>`: the member `state` is an array of exactly `W` words. -/
structure rng_state_t (W : Nat) where
  state : List Nat
  size_eq : state.length = W
deriving DecidableEq

/-- Word `j` of a state, `s[j]`. Reading at `j >= W` is undefined in the source; the model
gives `0` there, and no caller in `rng.hpp` reads out of range. -/
def rng_state_t.get {W : Nat} (s : rng_state_t W) (j : Nat) : Nat :=
  s.state.getD j 0

/-- Result of `std::copy_n(src.begin() + first, count, dst.begin())` on the destination: the
first `count` cells are overwritten with `src[first], ..., src[first + count - 1]`, the rest
of the destination is kept. -/
def copy_n (src : List Nat) (first count : Nat) (dst : List Nat) : List Nat :=
  (List.range count).map (fun k => src.getD (first + k) 0) ++ dst.drop count

theorem copy_n_length (src : List Nat) (first count : Nat) (dst : List Nat)
    (h : dst.length = count) : (copy_n src first count dst).length = count := by
  simp [copy_n, h]

/-- The statement `std::copy_n(seed.begin() + i * len, len, s.state.begin())` of the
constructor, with `len = W`. -/
def copy_state {W : Nat} (seed : List Nat) (i : Nat) (s : rng_state_t W) : rng_state_t W :=
  ⟨copy_n seed (i * W) W s.state, copy_n_length seed (i * W) W s.state s.size_eq⟩

/-! ## The pool `prng<T>` -/

/-- Class `prng<T>`: its only data member is `_state`, the vector of streams. -/
structure prng (W : Nat) where
  _state : List (rng_state_t W)
deriving DecidableEq

/-- One iteration of the constructor loop. The pair carries the local `s` and the object
under construction. -/
def prng.ctor_body {W : Nat} (xoshiro_jump : rng_state_t W → rng_state_t W) (seed : List Nat)
    (acc : rng_state_t W × prng W) (i : Nat) : rng_state_t W × prng W :=
  let len := W
  let n_seed := seed.length / len
  let s := if i < n_seed then copy_state seed i acc.1 else xoshiro_jump acc.1
  (s, ⟨acc.2._state ++ [s]⟩)

/-- Constructor `prng(const size_t n, const std::vector<uint64_t>& seed)`. The local
`rng_state_t<T> s;` is default-initialised; `s0` stands for its content before the loop. -/
def prng.ctor {W : Nat} (xoshiro_jump : rng_state_t W → rng_state_t W) (s0 : rng_state_t W)
    (n : Nat) (seed : List Nat) : prng W :=
  ((List.range n).foldl (prng.ctor_body xoshiro_jump seed) (s0, ⟨[]⟩)).2

/-- Constructor `prng(const size_t n, const int seed)`, delegating to the buffer constructor.
`xoshiro_initial_seed` is given the value of the argument. -/
def prng.ctor_int {W : Nat} (xoshiro_jump : rng_state_t W → rng_state_t W)
    (xoshiro_initial_seed : Int → List Nat) (s0 : rng_state_t W) (n : Nat) (seed : Int) :
    prng W :=
  prng.ctor xoshiro_jump s0 n (xoshiro_initial_seed seed)

/-- Outcome of a call of the buffer constructor as the caller sees it. The body of
`prng(n, seed)` has no `throw` and calls no check, so every call completes with a pool. -/
def prng.construct {W : Nat} (xoshiro_jump : rng_state_t W → rng_state_t W)
    (s0 : rng_state_t W) (n : Nat) (seed : List Nat) : Except String (prng W) :=
  Except.ok (prng.ctor xoshiro_jump s0 n seed)

/-- Member `size()`. -/
def prng.size {W : Nat} (p : prng W) : Nat :=
  p._state.length

/-- Member `state(i)`, `_state[i]`. Indexing at `i >= size()` is undefined in the source and
is `none` here. -/
def prng.state {W : Nat} (p : prng W) (i : Nat) : Option (rng_state_t W) :=
  p._state.get? i

/-- One iteration of the loop of `jump()` or `long_jump()`: `f(_state[i])`, in place. -/
def prng.apply_at {W : Nat} (f : rng_state_t W → rng_state_t W) (p : prng W) (i : Nat) :
    prng W :=
  match p._state.get? i with
  | some s => ⟨p._state.set i (f s)⟩
  | none => p

/-- Member `jump()`. -/
def prng.jump {W : Nat} (xoshiro_jump : rng_state_t W → rng_state_t W) (p : prng W) : prng W :=
  (List.range p.size).foldl (prng.apply_at xoshiro_jump) p

/-- Member `long_jump()`. -/
def prng.long_jump {W : Nat} (xoshiro_long_jump : rng_state_t W → rng_state_t W) (p : prng W) :
    prng W :=
  (List.range p.size).foldl (prng.apply_at xoshiro_long_jump) p

/-- Inner loop of `export_state()` for stream `i`: pushes `_state[i][j]` for `j < n`. -/
def prng.export_stream {W : Nat} (p : prng W) (state : List Nat) (i : Nat) : List Nat :=
  (List.range W).foldl
    (fun st j => match p._state.get? i with
      | some s => st ++ [s.get j]
      | none => st) state

/-- Member `export_state()`. It is not `const`, so the model returns the object after the call
next to the exported words; the body only reads `_state`. -/
def prng.export_state {W : Nat} (p : prng W) : List Nat × prng W :=
  ((List.range p.size).foldl (prng.export_stream p) [], p)

/-! ## The seed adapter `cpp11::as_rng_seed<T>` -/

namespace cpp11

/-- The R value handed over as `r_seed`, by `TYPEOF`. The payload of a numeric value is kept
abstract (type `ν`); a raw vector carries its bytes; `OTHER` is any other type. -/
inductive sexp (ν : Type) where
  | INTSXP (v : ν)
  | REALSXP (v : ν)
  | RAWSXP (seed_data : List Nat)
  | NILSXP
  | OTHER

/-- The value of `sizeof(uint64_t)`. -/
def sizeof_uint64_t : Nat := 8

/-- Word `k` of the buffer after `std::memcpy(seed.data(), RAW(seed_data), seed_data.size())`
into the zero-filled `seed`: its eight bytes, the first byte least significant (the byte
order of the host, taken little-endian). -/
def memcpy_word (seed_data : List Nat) (k : Nat) : Nat :=
  (List.range sizeof_uint64_t).foldl
    (fun acc b => acc + seed_data.getD (sizeof_uint64_t * k + b) 0 * 256 ^ b) 0

/-- The statements `seed.resize(seed_data.size() / sizeof(uint64_t))` and `std::memcpy`. -/
def resize_memcpy (seed_data : List Nat) : List Nat :=
  (List.range (seed_data.length / sizeof_uint64_t)).map (memcpy_word seed_data)

/-- Message of the `stop` call of the raw branch, `%d` printed from `len`. -/
def raw_length_message (len : Nat) : String :=
  "Expected raw vector of length as multiple of " ++ toString len ++ " for \x27seed\x27"

/-- Function `as_rng_seed<T>(r_seed)`. `as_cpp_size_t` is `::cpp11::as_cpp<size_t>`, and
`host_seed` is the integer computed from R's `unif_rand()` in the `NILSXP` branch. A call of
`stop` is `Except.error` with its message. -/
def as_rng_seed {ν : Type} (W : Nat) (xoshiro_initial_seed : Int → List Nat)
    (as_cpp_size_t : ν → Except String Nat) (host_seed : Nat) (r_seed : sexp ν) :
    Except String (List Nat) :=
  match r_seed with
  | sexp.INTSXP v =>
    match as_cpp_size_t v with
    | Except.ok seed_int => Except.ok (xoshiro_initial_seed (Int.ofNat seed_int))
    | Except.error e => Except.error e
  | sexp.REALSXP v =>
    match as_cpp_size_t v with
    | Except.ok seed_int => Except.ok (xoshiro_initial_seed (Int.ofNat seed_int))
    | Except.error e => Except.error e
  | sexp.RAWSXP seed_data =>
    let len := sizeof_uint64_t * W
    if seed_data.length = 0 ∨ seed_data.length % len ≠ 0 then
      Except.error (raw_length_message len)
    else
      Except.ok (resize_memcpy seed_data)
  | sexp.NILSXP => Except.ok (xoshiro_initial_seed (Int.ofNat host_seed))
  | sexp.OTHER => Except.error "Invalid type for \x27seed\x27"

end cpp11

/-! ## The distribution layer, `distr/uniform.hpp` -/

/-- The arithmetic of the template parameter `real_t` as far as `runif` uses it: its `*`, `-`
and `+`. For `float` and `double` these round, so no law is assumed of them. -/
structure real_ops (R : Type) where
  mul : R → R → R
  sub : R → R → R
  add : R → R → R

namespace distr

/-- Function `runif<real_t>(rng_state, min, max)`, returning
`unif_rand(rng_state) * (max - min) + min` in the arithmetic of `real_t`. `unif_rand` is
`xoshiro::unif_rand<real_t>` of `rng/xoshiro.hpp`: it returns a draw and leaves the state,
passed by reference, advanced. The result is the returned value and the state after the
call. -/
def runif {W : Nat} {R : Type} (ops : real_ops R)
    (unif_rand : rng_state_t W → R × rng_state_t W)
    (rng_state : rng_state_t W) (min max : R) : R × rng_state_t W :=
  let u := unif_rand rng_state
  (ops.add (ops.mul u.1 (ops.sub max min)) min, u.2)

/-- Outcome of a call of `runif` as the caller sees it. The body is a single `return` of an
arithmetic expression, with no comparison of `min` and `max` and no `throw`, so every call
completes with a value. -/
def runif_call {W : Nat} {R : Type} (ops : real_ops R)
    (unif_rand : rng_state_t W → R × rng_state_t W)
    (rng_state : rng_state_t W) (min max : R) : Except String (R × rng_state_t W) :=
  Except.ok (runif ops unif_rand rng_state min max)

end distr

/-! ### The instance `real_t = double`

IEEE 754 binary64 arithmetic with the default rounding, to nearest with ties to even. A finite
value is kept as an integer times a power of two; the two zeros are one value; the
infinities and the NaNs are one value `non_finite`, which every operation propagates. -/

/-- A value of type `double`: the number `m * 2 ^ e`, or an infinity or NaN. -/
inductive binary64 where
  | finite (m : Int) (e : Int)
  | non_finite
deriving DecidableEq

namespace binary64

/-- Number of binary digits of `n`, by halving; `fuel` bounds the number of steps. -/
def bit_length_loop : Nat → Nat → Nat
  | 0, _ => 0
  | fuel + 1, n => if n = 0 then 0 else bit_length_loop fuel (n / 2) + 1

/-- Number of binary digits of `n`: `0` for `0`, else the `k` with `2^(k-1) <= n < 2^k`. -/
def bit_length (n : Nat) : Nat :=
  bit_length_loop n n

/-- The binary64 nearest to the exact number `m * 2 ^ e`, ties to even. The result keeps 53
significant bits, on a grid no finer than `2 ^ (-1074)` (gradual underflow); `k` low bits are
dropped, `r` is what they held. A rounded magnitude of `2 ^ 1024` or more overflows. -/
def round (m e : Int) : binary64 :=
  let n := m.natAbs
  let grid : Int := max (e + (bit_length n : Int) - 53) (-1074)
  let k := (grid - e).toNat
  let q := n / 2 ^ k
  let r := n % 2 ^ k
  let q1 := if 2 * r > 2 ^ k ∨ (2 * r = 2 ^ k ∧ q % 2 = 1) then q + 1 else q
  let e1 := max grid e
  if q1 ≠ 0 ∧ (bit_length q1 : Int) + e1 > 1024 then non_finite else finite (m.sign * q1) e1

/-- Operator `+` of `double`: the exact sum, rounded. -/
def add : binary64 → binary64 → binary64
  | finite m1 e1, finite m2 e2 =>
    let e := min e1 e2
    round (m1 * 2 ^ (e1 - e).toNat + m2 * 2 ^ (e2 - e).toNat) e
  | _, _ => non_finite

/-- Operator `-` of `double`: the exact difference, rounded. -/
def sub : binary64 → binary64 → binary64
  | finite m1 e1, finite m2 e2 =>
    let e := min e1 e2
    round (m1 * 2 ^ (e1 - e).toNat - m2 * 2 ^ (e2 - e).toNat) e
  | _, _ => non_finite

/-- Operator `*` of `double`: the exact product, rounded. -/
def mul : binary64 → binary64 → binary64
  | finite m1 e1, finite m2 e2 => round (m1 * m2) (e1 + e2)
  | _, _ => non_finite

/-- The value is one a `double` can hold: a finite one has at most 53 significant bits, an
exponent not below that of the smallest subnormal, and a magnitude below `2 ^ 1024`. -/
def is_double : binary64 → Bool
  | finite m e =>
    decide (m.natAbs < 2 ^ 53) && decide (-1074 ≤ e) &&
      (decide (m = 0) || decide ((bit_length m.natAbs : Int) + e ≤ 1024))
  | non_finite => true

/-- The number a finite value stands for; an infinity or NaN stands for none. -/
def toRat : binary64 → Option ℚ
  | finite m e => some ((m : ℚ) * (2 : ℚ) ^ e)
  | non_finite => none

end binary64

/-- The arithmetic of `double`. -/
def binary64_ops : real_ops binary64 :=
  ⟨binary64.mul, binary64.sub, binary64.add⟩

/-- Arithmetic without rounding, on the rationals. -/
def exact_ops : real_ops ℚ :=
  ⟨fun a b => a * b, fun a b => a - b, fun a b => a + b⟩

/-! ## Auxiliary notions used in the statements -/

/-- Words `[i * W, (i + 1) * W)` of a seed buffer. -/
def seed_block (W : Nat) (seed : List Nat) (i : Nat) : List Nat :=
  (seed.drop (i * W)).take W

/-- A state is the all-zero vector. -/
def rng_state_t.all_zero {W : Nat} (s : rng_state_t W) : Prop :=
  ∀ w ∈ s.state, w = 0

instance {W : Nat} (s : rng_state_t W) : Decidable s.all_zero :=
  inferInstanceAs (Decidable (∀ w ∈ s.state, w = 0))

/-- A sample state of width 4, used to evaluate the definitions. -/
def sample_state (a b c d : Nat) : rng_state_t 4 :=
  ⟨[a, b, c, d], rfl⟩

/-- A sample transition of the right type to stand for `xoshiro_jump` when the definitions
are evaluated: it rotates the words of the register by one place. -/
def sample_jump {W : Nat} (s : rng_state_t W) : rng_state_t W :=
  ⟨s.state.rotate 1, by rw [List.length_rotate, s.size_eq]⟩

/-- A second sample transition, standing for `xoshiro_long_jump`: rotation by two places. -/
def sample_long_jump {W : Nat} (s : rng_state_t W) : rng_state_t W :=
  ⟨s.state.rotate 2, by rw [List.length_rotate, s.size_eq]⟩

/-- The operation `op` of `real_t` incurs no rounding error at the operands `a`, `b`: with
`val` giving the number a value of `real_t` stands for, the operands and the result stand for
numbers, and the result for `exact` of the operands. -/
def exact_at {R K : Type} (val : R → Option K) (op : R → R → R) (exact : K → K → K)
    (a b : R) : Prop :=
  ∃ x y, val a = some x ∧ val b = some y ∧ val (op a b) = some (exact x y)

/-- A sample draw of the right type to stand for `unif_rand` when `runif` is evaluated in
exact arithmetic: the draw is `(s[0] mod 8) / 8`, in `[0, 1)`, and the state moves on by
`sample_jump`. -/
def sample_unif_rand {W : Nat} (s : rng_state_t W) : ℚ × rng_state_t W :=
  (((s.get 0 % 8 : Nat) : ℚ) / 8, sample_jump s)

/-- A sample draw to stand for `unif_rand<double>`: the upper 53 bits of the 64-bit word
`s[0]`, scaled by `2 ^ (-53)`, in `[0, 1)`; the state moves on by `sample_jump`. -/
def sample_unif_rand_binary64 {W : Nat} (s : rng_state_t W) : binary64 × rng_state_t W :=
  (binary64.finite ((s.get 0 / 2 ^ 11 : Nat) : Int) (-53), sample_jump s)

/-- Content of the local `s` of the constructor after `n` iterations of its loop. -/
def prng.ctor_local {W : Nat} (xoshiro_jump : rng_state_t W → rng_state_t W)
    (s0 : rng_state_t W) (seed : List Nat) (n : Nat) : rng_state_t W :=
  ((List.range n).foldl (prng.ctor_body xoshiro_jump seed) (s0, ⟨[]⟩)).1

/-! ## Lemmas on the constructor loop -/

theorem rng_state_t.ext_state {W : Nat} {s t : rng_state_t W} (h : s.state = t.state) :
    s = t := by
  cases s; cases t; cases h; rfl

theorem copy_n_eq_block (seed : List Nat) (i W : Nat) (dst : List Nat)
    (hd : dst.length = W) (hi : i * W + W ≤ seed.length) :
    copy_n seed (i * W) W dst = seed_block W seed i := by
  have hdrop : dst.drop W = [] := List.drop_of_length_le (by omega)
  unfold copy_n seed_block
  rw [hdrop, List.append_nil]
  apply List.ext_getElem
  · simp; omega
  · intro k h1 h2
    simp at h1
    simp [List.getD_eq_getElem?_getD, List.getElem?_eq_getElem (show i * W + k < seed.length by omega)]

theorem prng.ctor_fold_succ {W : Nat} (xj : rng_state_t W → rng_state_t W)
    (seed : List Nat) (init : rng_state_t W × prng W) (n : Nat) :
    (List.range (n + 1)).foldl (prng.ctor_body xj seed) init
      = prng.ctor_body xj seed ((List.range n).foldl (prng.ctor_body xj seed) init) n := by
  rw [List.range_succ, List.foldl_append]
  rfl

theorem prng.ctor_local_zero {W : Nat} (xj : rng_state_t W → rng_state_t W)
    (s0 : rng_state_t W) (seed : List Nat) : prng.ctor_local xj s0 seed 0 = s0 := rfl

theorem prng.ctor_local_succ {W : Nat} (xj : rng_state_t W → rng_state_t W)
    (s0 : rng_state_t W) (seed : List Nat) (n : Nat) :
    prng.ctor_local xj s0 seed (n + 1)
      = if n < seed.length / W then copy_state seed n (prng.ctor_local xj s0 seed n)
        else xj (prng.ctor_local xj s0 seed n) := by
  unfold prng.ctor_local
  rw [prng.ctor_fold_succ]
  rfl

theorem prng.ctor_state_succ {W : Nat} (xj : rng_state_t W → rng_state_t W)
    (s0 : rng_state_t W) (seed : List Nat) (n : Nat) :
    (prng.ctor xj s0 (n + 1) seed)._state
      = (prng.ctor xj s0 n seed)._state ++ [prng.ctor_local xj s0 seed (n + 1)] := by
  unfold prng.ctor prng.ctor_local
  rw [prng.ctor_fold_succ]
  rfl

theorem prng.ctor_state_eq {W : Nat} (xj : rng_state_t W → rng_state_t W)
    (s0 : rng_state_t W) (seed : List Nat) (n : Nat) :
    (prng.ctor xj s0 n seed)._state
      = (List.range n).map (fun i => prng.ctor_local xj s0 seed (i + 1)) := by
  induction n with
  | zero => rfl
  | succ n ih => rw [prng.ctor_state_succ, ih, List.range_succ, List.map_append]; rfl

theorem prng.ctor_state_get {W : Nat} (xj : rng_state_t W → rng_state_t W)
    (s0 : rng_state_t W) (seed : List Nat) (n i : Nat) (hi : i < n) :
    (prng.ctor xj s0 n seed).state i = some (prng.ctor_local xj s0 seed (i + 1)) := by
  unfold prng.state
  rw [prng.ctor_state_eq]
  simp [hi]

theorem prng.ctor_size {W : Nat} (xj : rng_state_t W → rng_state_t W)
    (s0 : rng_state_t W) (seed : List Nat) (n : Nat) :
    (prng.ctor xj s0 n seed).size = n := by
  unfold prng.size
  rw [prng.ctor_state_eq]
  simp

theorem prng.ctor_local_direct {W : Nat} (xj : rng_state_t W → rng_state_t W)
    (s0 : rng_state_t W) (seed : List Nat) (i : Nat) (hi : i < seed.length / W) :
    (prng.ctor_local xj s0 seed (i + 1)).state = seed_block W seed i := by
  rw [prng.ctor_local_succ, if_pos hi]
  have h1 : (i + 1) * W ≤ seed.length := by
    have := Nat.mul_le_mul_right W (Nat.succ_le_of_lt hi)
    exact le_trans this (Nat.div_mul_le_self _ _)
  exact copy_n_eq_block seed i W _ (rng_state_t.size_eq _) (by rw [Nat.add_mul] at h1; omega)

theorem prng.ctor_local_chain {W : Nat} (xj : rng_state_t W → rng_state_t W)
    (s0 : rng_state_t W) (seed : List Nat) (d : Nat) :
    prng.ctor_local xj s0 seed (seed.length / W + d)
      = xj^[d] (prng.ctor_local xj s0 seed (seed.length / W)) := by
  induction d with
  | zero => rfl
  | succ d ih =>
    rw [← Nat.add_assoc, prng.ctor_local_succ, if_neg (by omega), ih,
      Function.iterate_succ_apply']

theorem prng.ctor_local_last {W : Nat} (xj : rng_state_t W → rng_state_t W)
    (s0 : rng_state_t W) (seed : List Nat) (k : Nat) (hW : 0 < W) (hk : 1 ≤ k)
    (hlen : seed.length = k * W) (last : rng_state_t W)
    (hlast : last.state = seed_block W seed (k - 1)) :
    prng.ctor_local xj s0 seed k = last := by
  have hdiv : seed.length / W = k := by rw [hlen]; exact Nat.mul_div_cancel k hW
  apply rng_state_t.ext_state
  rw [hlast]
  have h := prng.ctor_local_direct xj s0 seed (k - 1) (by omega)
  rwa [Nat.sub_add_cancel hk] at h

theorem prng.ctor_chain_get {W : Nat} (xj : rng_state_t W → rng_state_t W)
    (s0 : rng_state_t W) (seed : List Nat) (k n i : Nat) (hW : 0 < W) (hk : 1 ≤ k)
    (hlen : seed.length = k * W) (last : rng_state_t W)
    (hlast : last.state = seed_block W seed (k - 1)) (hki : k ≤ i + 1) (hin : i < n) :
    (prng.ctor xj s0 n seed).state i = some (xj^[i + 1 - k] last) := by
  have hdiv : seed.length / W = k := by rw [hlen]; exact Nat.mul_div_cancel k hW
  rw [prng.ctor_state_get xj s0 seed n i hin]
  have h := prng.ctor_local_chain xj s0 seed (i + 1 - k)
  rw [hdiv, prng.ctor_local_last xj s0 seed k hW hk hlen last hlast] at h
  rw [← h]
  congr 2
  omega

/-! ## Lemmas on `export_state`, `jump` and the seed adapter -/

theorem rng_state_t.range_map_get {W : Nat} (s : rng_state_t W) :
    (List.range W).map s.get = s.state := by
  apply List.ext_getElem
  · simp [s.size_eq]
  · intro k h1 h2
    simp [rng_state_t.get, List.getD_eq_getElem?_getD, List.getElem?_eq_getElem h2]

theorem foldl_push_eq_map {α : Type} (f : Nat → α) (st : List α) (n : Nat) :
    (List.range n).foldl (fun acc j => acc ++ [f j]) st = st ++ (List.range n).map f := by
  induction n with
  | zero => simp
  | succ n ih => rw [List.range_succ, List.foldl_append, ih]; simp

theorem prng.export_stream_eq {W : Nat} (p : prng W) (st : List Nat) (i : Nat)
    (s : rng_state_t W) (hs : p._state.get? i = some s) :
    prng.export_stream p st i = st ++ s.state := by
  unfold prng.export_stream
  rw [hs]
  rw [foldl_push_eq_map s.get st W, rng_state_t.range_map_get]

theorem prng.export_fold {W : Nat} (p : prng W) (n : Nat) (hn : n ≤ p._state.length) :
    (List.range n).foldl (prng.export_stream p) []
      = ((p._state.take n).map rng_state_t.state).flatten := by
  induction n with
  | zero => simp
  | succ n ih =>
    have hlt : n < p._state.length := by omega
    rw [List.range_succ, List.foldl_append, ih (by omega), List.foldl_cons, List.foldl_nil,
      prng.export_stream_eq p _ n (p._state.get ⟨n, hlt⟩) (by simp),
      List.take_succ, List.getElem?_eq_getElem hlt, Option.toList_some, List.map_append,
      List.flatten_append]
    simp

theorem prng.export_state_eq {W : Nat} (p : prng W) :
    p.export_state.1 = (p._state.map rng_state_t.state).flatten := by
  unfold prng.export_state prng.size
  rw [prng.export_fold p _ (le_refl _), List.take_length]

theorem flatten_length_uniform {W : Nat} (L : List (rng_state_t W)) :
    (L.map rng_state_t.state).flatten.length = L.length * W := by
  induction L with
  | nil => simp
  | cons a L ih => simp [ih, a.size_eq, Nat.add_mul, Nat.add_comm]

theorem flatten_block_uniform {W : Nat} (L : List (rng_state_t W)) (i : Nat)
    (s : rng_state_t W) (hs : L.get? i = some s) :
    seed_block W (L.map rng_state_t.state).flatten i = s.state := by
  induction L generalizing i with
  | nil => simp at hs
  | cons a L ih =>
    cases i with
    | zero =>
      simp at hs
      subst hs
      simp [seed_block, List.take_append_eq_append_take, a.size_eq]
    | succ i =>
      simp at hs
      have h := ih i (by simpa using hs)
      unfold seed_block at h ⊢
      rw [List.map_cons, List.flatten_cons, Nat.add_mul, Nat.one_mul, Nat.add_comm,
        show W + i * W = a.state.length + i * W by rw [a.size_eq], List.drop_append]
      exact h

theorem prng.apply_at_fold {W : Nat} (f : rng_state_t W → rng_state_t W) (p : prng W)
    (n : Nat) (i : Nat) :
    ((List.range n).foldl (prng.apply_at f) p)._state.get? i
      = if i < n then (p._state.get? i).map f else p._state.get? i := by
  induction n generalizing i with
  | zero => simp
  | succ n ih =>
    rw [List.range_succ, List.foldl_append, List.foldl_cons, List.foldl_nil]
    generalize (List.range n).foldl (prng.apply_at f) p = q at ih ⊢
    have hn : q._state.get? n = p._state.get? n := by rw [ih n, if_neg (Nat.lt_irrefl n)]
    unfold prng.apply_at
    rw [hn]
    cases hp : p._state.get? n with
    | none =>
      simp only [ih i]
      by_cases h1 : i < n
      · rw [if_pos h1, if_pos (by omega)]
      · rw [if_neg h1]
        by_cases h2 : i = n
        · subst h2; rw [if_pos (by omega), hp]; rfl
        · rw [if_neg (by omega)]
    | some s =>
      have hlen : n < q._state.length := by
        have h := hn
        rw [hp] at h
        rcases List.get?_eq_some.mp h with ⟨hlt, _⟩
        exact hlt
      simp only [List.get?_eq_getElem?] at ih hp ⊢
      by_cases h2 : i = n
      · subst h2
        rw [List.getElem?_set_self hlen, if_pos (by omega), hp]; rfl
      · rw [List.getElem?_set_ne (fun h => h2 h.symm), ih i]
        by_cases h1 : i < n
        · rw [if_pos h1, if_pos (by omega)]
        · rw [if_neg h1, if_neg (by omega)]

theorem prng.apply_at_fold_length {W : Nat} (f : rng_state_t W → rng_state_t W) (p : prng W)
    (n : Nat) : ((List.range n).foldl (prng.apply_at f) p)._state.length = p._state.length := by
  induction n with
  | zero => rfl
  | succ n ih =>
    rw [List.range_succ, List.foldl_append, List.foldl_cons, List.foldl_nil]
    generalize (List.range n).foldl (prng.apply_at f) p = q at ih ⊢
    unfold prng.apply_at
    cases q._state.get? n with
    | none => exact ih
    | some s => simpa using ih

theorem prng.apply_all_eq_map {W : Nat} (f : rng_state_t W → rng_state_t W) (p : prng W) :
    ((List.range p.size).foldl (prng.apply_at f) p)._state = p._state.map f := by
  apply List.ext_get?
  intro i
  rw [prng.apply_at_fold]
  simp only [List.get?_eq_getElem?, List.getElem?_map, prng.size]
  by_cases h : i < p._state.length
  · rw [if_pos h]
  · rw [if_neg h, List.getElem?_eq_none (by omega)]; rfl

theorem sample_jump_not_all_zero {W : Nat} (s : rng_state_t W) (h : ¬ s.all_zero) :
    ¬ (sample_jump s).all_zero := by
  intro hz
  apply h
  intro w hw
  exact hz w (by simpa [sample_jump] using hw)

theorem prng.ctor_local_not_all_zero {W : Nat} (xj : rng_state_t W → rng_state_t W)
    (s0 : rng_state_t W) (seed : List Nat) (n : Nat) (hlen : W ≤ seed.length) (hW : 0 < W)
    (hblock : ∀ i, i < n → i < seed.length / W → ∃ w ∈ seed_block W seed i, w ≠ 0)
    (hjump : ∀ s : rng_state_t W, ¬ s.all_zero → ¬ (xj s).all_zero) (i : Nat) (hi : i < n) :
    ¬ (prng.ctor_local xj s0 seed (i + 1)).all_zero := by
  have hpos : 0 < seed.length / W := Nat.div_pos hlen hW
  induction i with
  | zero =>
    intro hz
    obtain ⟨w, hw, hne⟩ := hblock 0 hi hpos
    rw [← prng.ctor_local_direct xj s0 seed 0 hpos] at hw
    exact hne (hz w hw)
  | succ i ih =>
    by_cases hd : i + 1 < seed.length / W
    · intro hz
      obtain ⟨w, hw, hne⟩ := hblock (i + 1) hi hd
      rw [← prng.ctor_local_direct xj s0 seed (i + 1) hd] at hw
      exact hne (hz w hw)
    · rw [prng.ctor_local_succ, if_neg hd]
      exact hjump _ (ih (by omega))

/-! ## The claims -/

/-- C1. Chained seeding. For a seed holding exactly `k >= 1` full states and `n > k`, every
stream `i` with `k <= i < n` of `prng(n, seed)` starts in the state obtained by applying
`xoshiro_jump` `i - k + 1` times to the last supplied state, and is stream `i - 1` advanced
by one jump; for a single-state seed (`k = 1`), also through the integer constructor, every
stream `i < n` is the supplied state jumped `i` times. -/
theorem prng_chained_seeding {W : Nat} (xoshiro_jump : rng_state_t W → rng_state_t W)
    (s0 : rng_state_t W) (seed : List Nat) (k n : Nat) (hW : 0 < W) (hk : 1 ≤ k)
    (hlen : seed.length = k * W) (last : rng_state_t W)
    (hlast : last.state = seed_block W seed (k - 1)) :
    (∀ i, k ≤ i → i < n →
        (prng.ctor xoshiro_jump s0 n seed).state i = some (xoshiro_jump^[i - k + 1] last)) ∧
    (∀ i, k ≤ i → i < n →
        (prng.ctor xoshiro_jump s0 n seed).state i
          = ((prng.ctor xoshiro_jump s0 n seed).state (i - 1)).map xoshiro_jump) ∧
    (k = 1 → ∀ i, i < n →
        (prng.ctor xoshiro_jump s0 n seed).state i = some (xoshiro_jump^[i] last)) ∧
    (k = 1 → ∀ (xoshiro_initial_seed : Int → List Nat) (x : Int),
        xoshiro_initial_seed x = seed → ∀ i, i < n →
        (prng.ctor_int xoshiro_jump xoshiro_initial_seed s0 n x).state i
          = some (xoshiro_jump^[i] last)) := by
  have key : ∀ i, k ≤ i + 1 → i < n →
      (prng.ctor xoshiro_jump s0 n seed).state i = some (xoshiro_jump^[i + 1 - k] last) :=
    fun i h1 h2 => prng.ctor_chain_get xoshiro_jump s0 seed k n i hW hk hlen last hlast h1 h2
  refine ⟨?_, ?_, ?_, ?_⟩
  · intro i hki hin
    rw [key i (by omega) hin]
    congr 2
    omega
  · intro i hki hin
    rw [key i (by omega) hin, key (i - 1) (by omega) (by omega), Option.map_some',
      ← Function.iterate_succ_apply' xoshiro_jump]
    congr 2
    omega
  · intro h1 i hin
    rw [key i (by omega) hin]
    congr 2
    omega
  · intro h1 init x hx i hin
    unfold prng.ctor_int
    rw [hx, key i (by omega) hin]
    congr 2
    omega

/-- Witness of C1: width 4, the two-state seed `1..8` and five streams. -/
theorem prng_chained_seeding_witness :
    (prng.ctor sample_jump (sample_state 0 0 0 0) 5 [1, 2, 3, 4, 5, 6, 7, 8]).state 3
        = some (sample_jump^[3 - 2 + 1] (sample_state 5 6 7 8)) ∧
    sample_jump^[3 - 2 + 1] (sample_state 5 6 7 8) = sample_state 7 8 5 6 :=
  ⟨(prng_chained_seeding sample_jump (sample_state 0 0 0 0) [1, 2, 3, 4, 5, 6, 7, 8] 2 5
      (by decide) (by decide) (by decide) (sample_state 5 6 7 8) (by decide)).1 3
      (by decide) (by decide),
    by decide⟩

/-- C2. Direct assignment. When the seed covers at least `n` full states, stream `i` of
`prng(n, seed)` holds exactly the words `seed[i*W .. (i+1)*W)` for every `i < n`, and the pool
is the same whatever `xoshiro_jump` does and whatever the local `s` held at first: no jump
contributes to any stream. The length need not be a multiple of `W` for this. -/
theorem prng_direct_assignment {W : Nat} (xoshiro_jump : rng_state_t W → rng_state_t W)
    (s0 : rng_state_t W) (seed : List Nat) (n : Nat) (hW : 0 < W)
    (hcov : n * W ≤ seed.length) :
    (∀ i, i < n →
        ((prng.ctor xoshiro_jump s0 n seed).state i).map rng_state_t.state
          = some (seed_block W seed i)) ∧
    (∀ (other_jump : rng_state_t W → rng_state_t W) (t0 : rng_state_t W),
        prng.ctor other_jump t0 n seed = prng.ctor xoshiro_jump s0 n seed) := by
  have hn : n ≤ seed.length / W := (Nat.le_div_iff_mul_le hW).mpr hcov
  have hget : ∀ (xj : rng_state_t W → rng_state_t W) (t : rng_state_t W) (i : Nat), i < n →
      (prng.ctor_local xj t seed (i + 1)).state = seed_block W seed i :=
    fun xj t i hi => prng.ctor_local_direct xj t seed i (by omega)
  constructor
  · intro i hi
    rw [prng.ctor_state_get xoshiro_jump s0 seed n i hi, Option.map_some', hget _ _ i hi]
  · intro xj t
    have h : (prng.ctor xj t n seed)._state = (prng.ctor xoshiro_jump s0 n seed)._state := by
      rw [prng.ctor_state_eq, prng.ctor_state_eq]
      apply List.map_congr_left
      intro i hi
      apply rng_state_t.ext_state
      rw [hget _ _ i (List.mem_range.mp hi), hget _ _ i (List.mem_range.mp hi)]
    cases hp : prng.ctor xj t n seed
    cases hq : prng.ctor xoshiro_jump s0 n seed
    rw [hp, hq] at h
    simpa using h

/-- Witness of C2: width 4, two streams from a seed of three states. -/
theorem prng_direct_assignment_witness :
    ((prng.ctor sample_jump (sample_state 0 0 0 0) 2
        [1, 2, 3, 4, 5, 6, 7, 8, 9, 10, 11, 12]).state 1).map rng_state_t.state
      = some [5, 6, 7, 8] :=
  (prng_direct_assignment sample_jump (sample_state 0 0 0 0)
    [1, 2, 3, 4, 5, 6, 7, 8, 9, 10, 11, 12] 2 (by decide) (by decide)).1 1
    (by decide)

/-- C8. Pool size. For every `n` and every seed buffer, of any length, the pool built by
`prng(n, seed)` has `size() == n`. -/
theorem prng_size_eq_n {W : Nat} (xoshiro_jump : rng_state_t W → rng_state_t W)
    (s0 : rng_state_t W) (n : Nat) (seed : List Nat) :
    (prng.ctor xoshiro_jump s0 n seed).size = n :=
  prng.ctor_size xoshiro_jump s0 seed n

/-- C3. Round trip. For every pool `p`, `prng(p.size(), p.export_state())` is a pool of the
same size whose state at every index is that of `p`; the two pools are equal, so every later
`jump` gives equal pools again. -/
theorem prng_export_import_round_trip {W : Nat} (xoshiro_jump : rng_state_t W → rng_state_t W)
    (s0 : rng_state_t W) (p : prng W) (hW : 0 < W) :
    (prng.ctor xoshiro_jump s0 p.size p.export_state.1).size = p.size ∧
    (∀ i, i < p.size →
        (prng.ctor xoshiro_jump s0 p.size p.export_state.1).state i = p.state i) ∧
    prng.ctor xoshiro_jump s0 p.size p.export_state.1 = p ∧
    prng.jump xoshiro_jump (prng.ctor xoshiro_jump s0 p.size p.export_state.1)
      = prng.jump xoshiro_jump p := by
  have hdiv : p.export_state.1.length / W = p.size := by
    rw [prng.export_state_eq, flatten_length_uniform]
    exact Nat.mul_div_cancel _ hW
  have hget : ∀ i, i < p.size →
      (prng.ctor xoshiro_jump s0 p.size p.export_state.1).state i = p.state i := by
    intro i hi
    rw [prng.ctor_state_get _ _ _ _ _ hi]
    have hs : p._state.get? i = some (p._state.get ⟨i, hi⟩) := by simp
    unfold prng.state
    rw [hs]
    congr 1
    apply rng_state_t.ext_state
    rw [prng.ctor_local_direct _ _ _ _ (by omega), prng.export_state_eq]
    exact flatten_block_uniform p._state i _ hs
  have heq : prng.ctor xoshiro_jump s0 p.size p.export_state.1 = p := by
    have hl : (prng.ctor xoshiro_jump s0 p.size p.export_state.1)._state = p._state := by
      apply List.ext_get?
      intro i
      by_cases hi : i < p.size
      · exact hget i hi
      · have h1 : (prng.ctor xoshiro_jump s0 p.size p.export_state.1)._state.length = p.size :=
          prng.ctor_size xoshiro_jump s0 p.export_state.1 p.size
        have h2 : p._state.length = p.size := rfl
        rw [List.get?_eq_none.mpr (by omega), List.get?_eq_none.mpr (by omega)]
    cases hq : prng.ctor xoshiro_jump s0 p.size p.export_state.1
    cases p
    rw [hq] at hl
    simpa using hl
  exact ⟨prng.ctor_size _ _ _ _, hget, heq, by rw [heq]⟩

/-- Witness of C3: a pool of two streams of width 4 is rebuilt from its export. -/
theorem prng_export_import_round_trip_witness :
    prng.ctor sample_jump (sample_state 0 0 0 0) 2
        (prng.export_state ⟨[sample_state 1 2 3 4, sample_state 5 6 7 8]⟩).1
      = ⟨[sample_state 1 2 3 4, sample_state 5 6 7 8]⟩ :=
  (prng_export_import_round_trip sample_jump (sample_state 0 0 0 0)
    ⟨[sample_state 1 2 3 4, sample_state 5 6 7 8]⟩ (by decide)).2.2.1

/-- C4. Export format. `export_state()` returns exactly `n * W` words, the word at position
`i * W + j` is word `j` of the state of stream `i` for every `i < n` and `j < W`, and the pool
after the call is the pool before it. -/
theorem prng_export_state_format {W : Nat} (p : prng W) :
    p.export_state.1.length = p.size * W ∧
    (∀ i s, p.state i = some s → ∀ j, j < W →
        p.export_state.1.get? (i * W + j) = some (s.get j)) ∧
    p.export_state.2 = p := by
  refine ⟨?_, ?_, rfl⟩
  · rw [prng.export_state_eq, flatten_length_uniform]; rfl
  · intro i s hs j hj
    have hb := flatten_block_uniform p._state i s hs
    rw [← prng.export_state_eq] at hb
    have hjs : j < s.state.length := by rw [s.size_eq]; exact hj
    have h1 : (seed_block W p.export_state.1 i).get? j = some (s.get j) := by
      rw [hb]
      simp [rng_state_t.get, List.getD_eq_getElem?_getD, List.getElem?_eq_getElem hjs]
    unfold seed_block at h1
    simpa [List.getElem?_take, hj] using h1

/-- Witness of C4: word 2 of stream 1 sits at position `1 * 4 + 2` of the export. -/
theorem prng_export_state_format_witness :
    (prng.export_state ⟨[sample_state 1 2 3 4, sample_state 5 6 7 8]⟩).1.get? (1 * 4 + 2)
      = some ((sample_state 5 6 7 8).get 2) :=
  (prng_export_state_format ⟨[sample_state 1 2 3 4, sample_state 5 6 7 8]⟩).2.1 1
    (sample_state 5 6 7 8) (by decide) 2 (by decide)

/-- C10. `jump()` replaces the state of every stream `i` by `xoshiro_jump` of that stream's
own previous state; the number and the order of the streams are unchanged. -/
theorem prng_jump_all {W : Nat} (xoshiro_jump : rng_state_t W → rng_state_t W) (p : prng W) :
    (prng.jump xoshiro_jump p).size = p.size ∧
    (∀ i, (prng.jump xoshiro_jump p).state i = (p.state i).map xoshiro_jump) ∧
    (prng.jump xoshiro_jump p)._state = p._state.map xoshiro_jump := by
  have h := prng.apply_all_eq_map xoshiro_jump p
  refine ⟨?_, ?_, h⟩
  · unfold prng.jump
    exact prng.apply_at_fold_length xoshiro_jump p p.size
  · intro i
    unfold prng.state prng.jump
    rw [h]
    simp

/-- C5, as stated, fails on the code: with width 4, `prng(1, seed)` on a seed of five words
(not a multiple of 4) completes and yields a pool of one stream holding the first four words;
no error is raised. -/
theorem prng_construct_bad_length_counterexample :
    (([1, 2, 3, 4, 5] : List Nat).length = 0 ∨ ([1, 2, 3, 4, 5] : List Nat).length % 4 ≠ 0) ∧
    prng.construct sample_jump (sample_state 9 9 9 9) 1 [1, 2, 3, 4, 5]
      = Except.ok ⟨[sample_state 1 2 3 4]⟩ ∧
    ¬ ∃ e, prng.construct sample_jump (sample_state 9 9 9 9) 1 [1, 2, 3, 4, 5]
      = Except.error e := by
  refine ⟨by decide, rfl, ?_⟩
  rintro ⟨e, he⟩
  cases he

/-- C5, amended. `prng(n, seed)` checks nothing: for every seed buffer, also one whose length
is zero or not a multiple of `W`, it completes with a pool of `n` streams. The length check
is made before construction by the raw branch of `as_rng_seed`, on the byte buffer: a byte
length that is zero or not a multiple of `8 * W` stops with the message naming `8 * W`, and
no seed is produced. -/
theorem prng_construct_total_adapter_checks {W : Nat}
    (xoshiro_jump : rng_state_t W → rng_state_t W) (s0 : rng_state_t W) (n : Nat)
    (seed : List Nat) :
    (prng.construct xoshiro_jump s0 n seed = Except.ok (prng.ctor xoshiro_jump s0 n seed) ∧
      (prng.ctor xoshiro_jump s0 n seed).size = n) ∧
    (∀ (ν : Type) (xoshiro_initial_seed : Int → List Nat)
        (as_cpp_size_t : ν → Except String Nat) (host_seed : Nat) (seed_data : List Nat),
        (seed_data.length = 0 ∨ seed_data.length % (8 * W) ≠ 0) →
        cpp11.as_rng_seed W xoshiro_initial_seed as_cpp_size_t host_seed
            (cpp11.sexp.RAWSXP seed_data)
          = Except.error (cpp11.raw_length_message (8 * W))) := by
  refine ⟨⟨rfl, prng.ctor_size _ _ _ _⟩, ?_⟩
  intro ν init conv host seed_data h
  simp only [cpp11.as_rng_seed, cpp11.sizeof_uint64_t]
  rw [if_pos h]

/-- Witness of C5 amended: the empty seed gives a pool of three streams, and a raw vector of
31 bytes is stopped by the adapter for width 4. -/
theorem prng_construct_total_adapter_checks_witness :
    (prng.ctor sample_jump (sample_state 9 9 9 9) 3 []).size = 3 ∧
    cpp11.as_rng_seed 4 (fun _ => []) (fun x : Nat => Except.ok x) 0
        (cpp11.sexp.RAWSXP (List.replicate 31 7))
      = Except.error (cpp11.raw_length_message (8 * 4)) :=
  ⟨(prng_construct_total_adapter_checks sample_jump (sample_state 9 9 9 9) 3 []).1.2,
    (prng_construct_total_adapter_checks sample_jump (sample_state 9 9 9 9) 3 []).2 Nat (fun _ => []) (fun x : Nat => Except.ok x) 0 (List.replicate 31 7)
      (by decide)⟩

/-- C6. Raw branch of `as_rng_seed`: it stops exactly when the byte length is zero or not a
multiple of `8 * W`; otherwise it returns `byte length / 8` words, a positive multiple of `W`.
A buffer of `W * 8 - 1` bytes is stopped (for `W >= 1`) and no seed is returned. -/
theorem as_rng_seed_raw_length_check {ν : Type} (W : Nat)
    (xoshiro_initial_seed : Int → List Nat) (as_cpp_size_t : ν → Except String Nat)
    (host_seed : Nat) (seed_data : List Nat) :
    ((∃ e, cpp11.as_rng_seed W xoshiro_initial_seed as_cpp_size_t host_seed
          (cpp11.sexp.RAWSXP seed_data) = Except.error e)
      ↔ (seed_data.length = 0 ∨ seed_data.length % (8 * W) ≠ 0)) ∧
    (¬ (seed_data.length = 0 ∨ seed_data.length % (8 * W) ≠ 0) →
      ∃ seed, cpp11.as_rng_seed W xoshiro_initial_seed as_cpp_size_t host_seed
          (cpp11.sexp.RAWSXP seed_data) = Except.ok seed
        ∧ seed.length = seed_data.length / 8 ∧ 0 < seed.length ∧ seed.length % W = 0
        ∧ seed.length * 8 = seed_data.length) ∧
    (0 < W → seed_data.length = W * 8 - 1 →
      cpp11.as_rng_seed W xoshiro_initial_seed as_cpp_size_t host_seed
          (cpp11.sexp.RAWSXP seed_data) = Except.error (cpp11.raw_length_message (8 * W))) := by
  refine ⟨?_, ?_, ?_⟩
  · simp only [cpp11.as_rng_seed, cpp11.sizeof_uint64_t]
    by_cases h : seed_data.length = 0 ∨ seed_data.length % (8 * W) ≠ 0
    · rw [if_pos h]
      exact ⟨fun _ => h, fun _ => ⟨_, rfl⟩⟩
    · rw [if_neg h]
      constructor
      · rintro ⟨e, he⟩
        cases he
      · intro h2
        exact absurd h2 h
  · intro h
    refine ⟨cpp11.resize_memcpy seed_data, ?_, ?_⟩
    · simp only [cpp11.as_rng_seed, cpp11.sizeof_uint64_t]
      rw [if_neg h]
    · have h0 : seed_data.length ≠ 0 := fun h0 => h (Or.inl h0)
      have hm : seed_data.length % (8 * W) = 0 := by
        by_contra hm
        exact h (Or.inr hm)
      obtain ⟨c, hc⟩ := Nat.dvd_of_mod_eq_zero hm
      have hl : (cpp11.resize_memcpy seed_data).length = seed_data.length / 8 := by
        simp [cpp11.resize_memcpy, cpp11.sizeof_uint64_t]
      have hd : seed_data.length / 8 = W * c := by
        rw [hc, Nat.mul_assoc]
        exact Nat.mul_div_cancel_left _ (by decide)
      rw [hl, hd]
      refine ⟨rfl, ?_, Nat.mul_mod_right W c, ?_⟩
      · rcases Nat.eq_zero_or_pos (W * c) with hz | hp
        · rw [Nat.mul_assoc, hz] at hc
          exact absurd hc h0
        · exact hp
      · rw [hc]; ring
  · intro hW hlen
    simp only [cpp11.as_rng_seed, cpp11.sizeof_uint64_t]
    rw [if_pos]
    right
    rw [hlen, Nat.mod_eq_of_lt (by omega)]
    omega

/-- Witness of C6: for width 4, 32 bytes are accepted and give 4 words; 31 bytes are not. -/
theorem as_rng_seed_raw_length_check_witness :
    (∃ seed, cpp11.as_rng_seed 4 (fun _ => []) (fun x : Nat => Except.ok x) 0
          (cpp11.sexp.RAWSXP (List.replicate 32 1)) = Except.ok seed
        ∧ seed.length = (List.replicate 32 1).length / 8 ∧ 0 < seed.length
        ∧ seed.length % 4 = 0 ∧ seed.length * 8 = (List.replicate 32 1).length) ∧
    cpp11.as_rng_seed 4 (fun _ => []) (fun x : Nat => Except.ok x) 0
        (cpp11.sexp.RAWSXP (List.replicate 31 1))
      = Except.error (cpp11.raw_length_message (8 * 4)) :=
  ⟨(as_rng_seed_raw_length_check 4 (fun _ => []) (fun x : Nat => Except.ok x) 0
      (List.replicate 32 1)).2.1 (by decide),
    (as_rng_seed_raw_length_check 4 (fun _ => []) (fun x : Nat => Except.ok x) 0
      (List.replicate 31 1)).2.2 (by decide) (by decide)⟩

/-- C9, as stated, fails on the code: for width 4 the raw vector of 32 zero bytes is accepted
by `as_rng_seed` and gives the seed of four zero words, which is non-empty and of a length
that is a multiple of 4; `prng(1, seed)` then holds the all-zero state vector. -/
theorem prng_all_zero_state_counterexample :
    cpp11.as_rng_seed 4 (fun _ => []) (fun x : Nat => Except.ok x) 0
        (cpp11.sexp.RAWSXP (List.replicate 32 0)) = Except.ok [0, 0, 0, 0] ∧
    ([0, 0, 0, 0] : List Nat) ≠ [] ∧ ([0, 0, 0, 0] : List Nat).length % 4 = 0 ∧
    (prng.ctor sample_jump (sample_state 9 9 9 9) 1 [0, 0, 0, 0]).state 0
      = some (sample_state 0 0 0 0) ∧
    (sample_state 0 0 0 0).all_zero ∧
    ¬ (∀ s, (prng.ctor sample_jump (sample_state 9 9 9 9) 1 [0, 0, 0, 0]).state 0 = some s →
        ¬ s.all_zero) := by
  refine ⟨rfl, by decide, by decide, by decide, by decide, ?_⟩
  intro h
  exact h (sample_state 0 0 0 0) (by decide) (by decide)

/-- C9, amended. The constructor stores supplied states as they are, so the invariant holds
under two provisos: if every full state that the seed supplies to the pool has a non-zero
word, and `xoshiro_jump` sends states that are not all-zero to states that are not all-zero,
then for a non-empty seed whose length is a multiple of `W` no state vector of
`prng(n, seed)` is the all-zero vector. -/
theorem prng_states_not_all_zero {W : Nat} (xoshiro_jump : rng_state_t W → rng_state_t W)
    (s0 : rng_state_t W) (n : Nat) (seed : List Nat) (hW : 0 < W) (hne : seed ≠ [])
    (hmul : seed.length % W = 0)
    (hblock : ∀ i, i < n → i < seed.length / W → ∃ w ∈ seed_block W seed i, w ≠ 0)
    (hjump : ∀ s : rng_state_t W, ¬ s.all_zero → ¬ (xoshiro_jump s).all_zero) :
    ∀ i s, (prng.ctor xoshiro_jump s0 n seed).state i = some s → ¬ s.all_zero := by
  intro i s hs
  have hlen : W ≤ seed.length := by
    obtain ⟨c, hc⟩ := Nat.dvd_of_mod_eq_zero hmul
    have h0 : seed.length ≠ 0 := fun h => hne (List.length_eq_zero.mp h)
    rcases Nat.eq_zero_or_pos c with hz | hp
    · rw [hz, Nat.mul_zero] at hc
      exact absurd hc h0
    · rw [hc]
      exact Nat.le_mul_of_pos_right W hp
  have hi : i < n := by
    by_contra hge
    have h1 : (prng.ctor xoshiro_jump s0 n seed)._state.length = n :=
      prng.ctor_size xoshiro_jump s0 seed n
    unfold prng.state at hs
    rw [List.get?_eq_none.mpr (by omega)] at hs
    cases hs
  rw [prng.ctor_state_get _ _ _ _ _ hi] at hs
  cases hs
  exact prng.ctor_local_not_all_zero xoshiro_jump s0 seed n hlen hW hblock hjump i hi

/-- Witness of C9 amended: three streams of width 4 from the seed `0, 0, 0, 1`. -/
theorem prng_states_not_all_zero_witness :
    (prng.ctor sample_jump (sample_state 0 0 0 0) 3 [0, 0, 0, 1]).state 2
        = some (sample_state 0 1 0 0) ∧
    ¬ (sample_state 0 1 0 0).all_zero :=
  ⟨by decide,
    prng_states_not_all_zero sample_jump (sample_state 0 0 0 0) 3 [0, 0, 0, 1] (by decide)
      (by decide) (by decide)
      (fun i _ hi => by
        have h0 : i = 0 := by
          have h1 : ([0, 0, 0, 1] : List Nat).length / 4 = 1 := by decide
          omega
        subst h0
        exact ⟨1, by decide, by decide⟩)
      (fun s h => sample_jump_not_all_zero s h) 2 (sample_state 0 1 0 0) (by decide)⟩

/-- C11. `long_jump()` replaces the state of every stream `i` by `xoshiro_long_jump` of that
stream's own previous state; the number and the order of the streams are unchanged. -/
theorem prng_long_jump_all {W : Nat} (xoshiro_long_jump : rng_state_t W → rng_state_t W)
    (p : prng W) :
    (prng.long_jump xoshiro_long_jump p).size = p.size ∧
    (∀ i, (prng.long_jump xoshiro_long_jump p).state i = (p.state i).map xoshiro_long_jump) ∧
    (prng.long_jump xoshiro_long_jump p)._state = p._state.map xoshiro_long_jump := by
  have h := prng.apply_all_eq_map xoshiro_long_jump p
  refine ⟨?_, ?_, h⟩
  · unfold prng.long_jump
    exact prng.apply_at_fold_length xoshiro_long_jump p p.size
  · intro i
    unfold prng.state prng.long_jump
    rw [h, List.get?_eq_getElem?, List.get?_eq_getElem?, List.getElem?_map]

/-! ## Chain seeding followed by `jump`, and truncated seeds -/

theorem seed_block_zero_of_length (W : Nat) (l : List Nat) (h : l.length = W) :
    seed_block W l 0 = l := by
  unfold seed_block
  rw [Nat.zero_mul, List.drop_zero, List.take_of_length_le (Nat.le_of_eq h)]

theorem seed_block_take (W : Nat) (seed : List Nat) (m i : Nat) (h : i * W + W ≤ m * W) :
    seed_block W (seed.take (m * W)) i = seed_block W seed i := by
  unfold seed_block
  rw [List.drop_take, List.take_take, Nat.min_eq_left (by omega)]

theorem prng.ctor_local_truncated {W : Nat} (xj : rng_state_t W → rng_state_t W)
    (s0 t0 : rng_state_t W) (seed : List Nat) (n : Nat) (hW : 0 < W) (hlen : W ≤ seed.length)
    (i : Nat) (hi : i < n) :
    prng.ctor_local xj s0 seed (i + 1)
      = prng.ctor_local xj t0 (seed.take (min n (seed.length / W) * W)) (i + 1) := by
  have hpos : 0 < seed.length / W := Nat.div_pos hlen hW
  have hmle : min n (seed.length / W) * W ≤ seed.length :=
    le_trans (Nat.mul_le_mul_right W (Nat.min_le_right _ _)) (Nat.div_mul_le_self _ _)
  have hlen2 : (seed.take (min n (seed.length / W) * W)).length = min n (seed.length / W) * W := by
    rw [List.length_take, Nat.min_eq_left hmle]
  have hdiv2 : (seed.take (min n (seed.length / W) * W)).length / W = min n (seed.length / W) := by
    rw [hlen2]
    exact Nat.mul_div_cancel _ hW
  have hdirect : ∀ k, k < min n (seed.length / W) →
      prng.ctor_local xj s0 seed (k + 1)
        = prng.ctor_local xj t0 (seed.take (min n (seed.length / W) * W)) (k + 1) := by
    intro k hk
    apply rng_state_t.ext_state
    rw [prng.ctor_local_direct xj s0 seed k (lt_of_lt_of_le hk (Nat.min_le_right _ _)),
      prng.ctor_local_direct xj t0 _ k (by rw [hdiv2]; exact hk)]
    symm
    apply seed_block_take
    have := Nat.mul_le_mul_right W (Nat.succ_le_of_lt hk)
    rw [Nat.succ_mul] at this
    exact this
  induction i with
  | zero => exact hdirect 0 (by omega)
  | succ i ih =>
    by_cases hk : i + 1 < min n (seed.length / W)
    · exact hdirect (i + 1) hk
    · have hm : min n (seed.length / W) = seed.length / W := by omega
      rw [prng.ctor_local_succ xj s0 seed (i + 1), prng.ctor_local_succ xj t0 _ (i + 1),
        hdiv2, if_neg hk, if_neg (by omega), ih (by omega)]

theorem prng.ctor_truncated {W : Nat} (xj : rng_state_t W → rng_state_t W)
    (s0 t0 : rng_state_t W) (seed : List Nat) (n : Nat) (hW : 0 < W) (hlen : W ≤ seed.length) :
    prng.ctor xj s0 n seed = prng.ctor xj t0 n (seed.take (min n (seed.length / W) * W)) := by
  have h : (prng.ctor xj s0 n seed)._state
      = (prng.ctor xj t0 n (seed.take (min n (seed.length / W) * W)))._state := by
    rw [prng.ctor_state_eq, prng.ctor_state_eq]
    apply List.map_congr_left
    intro i hi
    exact prng.ctor_local_truncated xj s0 t0 seed n hW hlen i (List.mem_range.mp hi)
  cases hp : prng.ctor xj s0 n seed
  cases hq : prng.ctor xj t0 n (seed.take (min n (seed.length / W) * W))
  rw [hp, hq] at h
  simpa using h

/-- C15. For a single-state seed `S` and every `n`, after `jump()` on `prng(n, S)` the state of
stream `i < n` is `xoshiro_jump` applied `i + 1` times to `S`, which is the initial state of
stream `i + 1` of `prng(n + 1, S)`. -/
theorem prng_jump_shifts_chain {W : Nat} (xoshiro_jump : rng_state_t W → rng_state_t W)
    (s0 t0 : rng_state_t W) (S : rng_state_t W) (n i : Nat) (hW : 0 < W) (hi : i < n) :
    (prng.jump xoshiro_jump (prng.ctor xoshiro_jump s0 n S.state)).state i
      = (prng.ctor xoshiro_jump t0 (n + 1) S.state).state (i + 1) ∧
    (prng.jump xoshiro_jump (prng.ctor xoshiro_jump s0 n S.state)).state i
      = some (xoshiro_jump^[i + 1] S) ∧
    (prng.ctor xoshiro_jump t0 (n + 1) S.state).state (i + 1)
      = some (xoshiro_jump^[i + 1] S) := by
  have hlen : S.state.length = 1 * W := by rw [S.size_eq, Nat.one_mul]
  have hlast : S.state = seed_block W S.state (1 - 1) :=
    (seed_block_zero_of_length W S.state S.size_eq).symm
  have h1 := prng.ctor_chain_get xoshiro_jump s0 S.state 1 n i hW (le_refl 1) hlen S hlast
    (by omega) hi
  have h2 := prng.ctor_chain_get xoshiro_jump t0 S.state 1 (n + 1) (i + 1) hW (le_refl 1) hlen
    S hlast (by omega) (by omega)
  have hj : (prng.jump xoshiro_jump (prng.ctor xoshiro_jump s0 n S.state)).state i
      = some (xoshiro_jump^[i + 1] S) := by
    unfold prng.jump
    unfold prng.state at h1 ⊢
    rw [prng.apply_all_eq_map, List.get?_eq_getElem?, List.getElem?_map,
      ← List.get?_eq_getElem?, h1, Option.map_some', Nat.add_sub_cancel,
      ← Function.iterate_succ_apply' xoshiro_jump]
  have h3 : (prng.ctor xoshiro_jump t0 (n + 1) S.state).state (i + 1)
      = some (xoshiro_jump^[i + 1] S) := by
    rw [h2, Nat.add_sub_cancel]
  exact ⟨by rw [hj, h3], hj, h3⟩

/-- Witness of C15: three streams of width 4, stream 1 after `jump()` against stream 2 of the
pool of four streams. -/
theorem prng_jump_shifts_chain_witness :
    (prng.jump sample_jump
        (prng.ctor sample_jump (sample_state 0 0 0 0) 3 (sample_state 1 2 3 4).state)).state 1
      = (prng.ctor sample_jump (sample_state 0 0 0 0) 4 (sample_state 1 2 3 4).state).state 2 ∧
    (prng.ctor sample_jump (sample_state 0 0 0 0) 4 [1, 2, 3, 4]).state 2
      = some (sample_state 3 4 1 2) :=
  ⟨(prng_jump_shifts_chain sample_jump (sample_state 0 0 0 0) (sample_state 0 0 0 0)
      (sample_state 1 2 3 4) 3 1 (by decide) (by decide)).1,
    by decide⟩

/-- C16. Pool construction reads only whole leading states of the seed: for a seed of at
least `W` words, `prng(n, seed)` is the pool built from the seed truncated to its first
`min(n, floor(seed.size() / W)) * W` words, whatever the local `s` held at first; so two seeds
with the same such truncation give the same pool. -/
theorem prng_reads_whole_leading_states {W : Nat}
    (xoshiro_jump : rng_state_t W → rng_state_t W) (s0 t0 : rng_state_t W) (n : Nat)
    (seed : List Nat) (hW : 0 < W) (hlen : W ≤ seed.length) :
    prng.ctor xoshiro_jump s0 n seed
      = prng.ctor xoshiro_jump t0 n (seed.take (min n (seed.length / W) * W)) ∧
    (∀ other : List Nat, W ≤ other.length →
        other.take (min n (other.length / W) * W) = seed.take (min n (seed.length / W) * W) →
        prng.ctor xoshiro_jump t0 n other = prng.ctor xoshiro_jump s0 n seed) := by
  refine ⟨prng.ctor_truncated xoshiro_jump s0 t0 seed n hW hlen, ?_⟩
  intro other ho heq
  rw [prng.ctor_truncated xoshiro_jump t0 t0 other n hW ho, heq]
  exact (prng.ctor_truncated xoshiro_jump s0 t0 seed n hW hlen).symm

/-- Witness of C16: two streams of width 4 from a seed of three states and two trailing
words; only the first eight words are read. -/
theorem prng_reads_whole_leading_states_witness :
    prng.ctor sample_jump (sample_state 0 0 0 0) 2
        [1, 2, 3, 4, 5, 6, 7, 8, 9, 10, 11, 12, 13, 14]
      = prng.ctor sample_jump (sample_state 9 9 9 9) 2
        (([1, 2, 3, 4, 5, 6, 7, 8, 9, 10, 11, 12, 13, 14] : List Nat).take
          (min 2 (([1, 2, 3, 4, 5, 6, 7, 8, 9, 10, 11, 12, 13, 14] : List Nat).length / 4) * 4)) ∧
    ([1, 2, 3, 4, 5, 6, 7, 8, 9, 10, 11, 12, 13, 14] : List Nat).take
        (min 2 (([1, 2, 3, 4, 5, 6, 7, 8, 9, 10, 11, 12, 13, 14] : List Nat).length / 4) * 4)
      = [1, 2, 3, 4, 5, 6, 7, 8] :=
  ⟨(prng_reads_whole_leading_states sample_jump (sample_state 0 0 0 0) (sample_state 9 9 9 9) 2
      [1, 2, 3, 4, 5, 6, 7, 8, 9, 10, 11, 12, 13, 14] (by decide) (by decide)).1,
    by decide⟩

/-! ## Independence of the number of streams -/

theorem prng.ctor_local_independent_of_local {W : Nat} (xj : rng_state_t W → rng_state_t W)
    (s0 t0 : rng_state_t W) (seed : List Nat) (hW : 0 < W) (hlen : W ≤ seed.length) (i : Nat) :
    prng.ctor_local xj s0 seed (i + 1) = prng.ctor_local xj t0 seed (i + 1) := by
  have hpos : 0 < seed.length / W := Nat.div_pos hlen hW
  induction i with
  | zero =>
    apply rng_state_t.ext_state
    rw [prng.ctor_local_direct xj s0 seed 0 hpos, prng.ctor_local_direct xj t0 seed 0 hpos]
  | succ i ih =>
    by_cases hd : i + 1 < seed.length / W
    · apply rng_state_t.ext_state
      rw [prng.ctor_local_direct xj s0 seed (i + 1) hd,
        prng.ctor_local_direct xj t0 seed (i + 1) hd]
    · rw [prng.ctor_local_succ xj s0 seed (i + 1), prng.ctor_local_succ xj t0 seed (i + 1),
        if_neg hd, if_neg hd, ih]

/-- C7, as stated, fails on the code for a seed shorter than `W`: every stream is then a jump
of the local `s`, which the constructor never assigns, and two constructor calls need not
find the same content there. With the empty seed, width 4, `n = 1` and `m = 2`, a call that
finds `1, 2, 3, 4` and a call that finds `9, 9, 9, 9` give different first streams. -/
theorem prng_short_seed_streams_counterexample :
    (1 : Nat) ≤ 2 ∧ ([] : List Nat).length < 4 ∧
    (prng.ctor sample_jump (sample_state 1 2 3 4) 2 []).state 0
      = some (sample_state 2 3 4 1) ∧
    (prng.ctor sample_jump (sample_state 9 9 9 9) 1 []).state 0
      = some (sample_state 9 9 9 9) ∧
    (prng.ctor sample_jump (sample_state 1 2 3 4) 2 [])._state.take 1
      ≠ (prng.ctor sample_jump (sample_state 9 9 9 9) 1 [])._state := by
  decide

/-- C7, amended. Independence of `n` for a seed of at least `W` words: for `n <= m` the first
`n` streams of `prng(m, seed)` are the streams of `prng(n, seed)`, stream by stream, whatever
the local `s` held at first in either of the two constructor calls. -/
theorem prng_streams_independent_of_n {W : Nat} (xoshiro_jump : rng_state_t W → rng_state_t W)
    (s0 t0 : rng_state_t W) (seed : List Nat) (n m : Nat) (hW : 0 < W)
    (hlen : W ≤ seed.length) (hnm : n ≤ m) :
    (prng.ctor xoshiro_jump s0 m seed)._state.take n = (prng.ctor xoshiro_jump t0 n seed)._state ∧
    (∀ i, i < n →
        (prng.ctor xoshiro_jump s0 m seed).state i = (prng.ctor xoshiro_jump t0 n seed).state i) := by
  constructor
  · rw [prng.ctor_state_eq, prng.ctor_state_eq, ← List.map_take, List.take_range,
      Nat.min_eq_left hnm]
    apply List.map_congr_left
    intro i _
    exact prng.ctor_local_independent_of_local xoshiro_jump s0 t0 seed hW hlen i
  · intro i hi
    rw [prng.ctor_state_get _ _ _ _ _ hi, prng.ctor_state_get _ _ _ _ _ (by omega),
      prng.ctor_local_independent_of_local xoshiro_jump s0 t0 seed hW hlen i]

/-- Witness of C7 amended: the first two of five streams are the two streams of the smaller
pool, the two calls starting from different contents of the local. -/
theorem prng_streams_independent_of_n_witness :
    (prng.ctor sample_jump (sample_state 1 2 3 4) 5 [1, 2, 3, 4])._state.take 2
      = (prng.ctor sample_jump (sample_state 9 9 9 9) 2 [1, 2, 3, 4])._state :=
  (prng_streams_independent_of_n sample_jump (sample_state 1 2 3 4) (sample_state 9 9 9 9)
    [1, 2, 3, 4] 2 5 (by decide) (by decide) (by decide)).1

/-! ## `runif` -/

theorem exact_at_value {R K : Type} (val : R → Option K) (op : R → R → R)
    (exact : K → K → K) (a b : R) (x y : K) (h : exact_at val op exact a b)
    (hx : val a = some x) (hy : val b = some y) : val (op a b) = some (exact x y) := by
  obtain ⟨x1, y1, hx1, hy1, hr⟩ := h
  rw [hx] at hx1
  rw [hy] at hy1
  cases hx1
  cases hy1
  exact hr

theorem runif_value_of_exact {W : Nat} {R K : Type} [Field K] (ops : real_ops R)
    (val : R → Option K) (unif_rand : rng_state_t W → R × rng_state_t W)
    (rng_state : rng_state_t W) (min max : R) (u lo hi : K)
    (hu : val (unif_rand rng_state).1 = some u) (hlo : val min = some lo)
    (hhi : val max = some hi)
    (hsub : exact_at val ops.sub (fun a b => a - b) max min)
    (hmul : exact_at val ops.mul (fun a b => a * b) (unif_rand rng_state).1 (ops.sub max min))
    (hadd : exact_at val ops.add (fun a b => a + b)
      (ops.mul (unif_rand rng_state).1 (ops.sub max min)) min) :
    val (distr.runif ops unif_rand rng_state min max).1 = some (u * (hi - lo) + lo) := by
  have h1 := exact_at_value val ops.sub _ max min hi lo hsub hhi hlo
  have h2 := exact_at_value val ops.mul _ _ _ u (hi - lo) hmul hu h1
  exact exact_at_value val ops.add _ _ _ (u * (hi - lo)) lo hadd h2 hlo

theorem sample_draw_half :
    (sample_unif_rand_binary64 (sample_state (2 ^ 63) 0 0 0)).1
      = binary64.finite (2 ^ 52) (-53) := by
  decide

theorem sample_draw_zero :
    (sample_unif_rand_binary64 (sample_state 0 0 0 0)).1 = binary64.finite 0 (-53) := by
  decide

/-- C12, as stated, fails on the code at `min = max`: with the draw `1/2` and both bounds
`1`, `runif` returns `1/2 * (1 - 1) + 1 = 1`, which is not below `max = 1`; the interval
`[1, 1)` is empty. This is so in exact arithmetic and in `double`, where no operation of
this evaluation rounds. -/
theorem runif_equal_bounds_counterexample :
    (1 : ℚ) ≤ 1 ∧
    (sample_unif_rand (sample_state 4 0 0 0)).1 = 1 / 2 ∧
    (distr.runif exact_ops sample_unif_rand (sample_state 4 0 0 0) 1 1).1 = 1 ∧
    ¬ ((1 : ℚ) ≤ (distr.runif exact_ops sample_unif_rand (sample_state 4 0 0 0) 1 1).1 ∧
        (distr.runif exact_ops sample_unif_rand (sample_state 4 0 0 0) 1 1).1 < 1) ∧
    (sample_unif_rand_binary64 (sample_state (2 ^ 63) 0 0 0)).1.is_double = true ∧
    (binary64.finite 1 0).is_double = true ∧
    binary64.toRat (sample_unif_rand_binary64 (sample_state (2 ^ 63) 0 0 0)).1
      = some (1 / 2) ∧
    binary64.toRat (binary64.finite 1 0) = some 1 ∧
    binary64.toRat (distr.runif binary64_ops sample_unif_rand_binary64
        (sample_state (2 ^ 63) 0 0 0) (binary64.finite 1 0) (binary64.finite 1 0)).1
      = some 1 ∧
    ¬ ∃ r hi : ℚ,
      binary64.toRat (distr.runif binary64_ops sample_unif_rand_binary64
        (sample_state (2 ^ 63) 0 0 0) (binary64.finite 1 0) (binary64.finite 1 0)).1 = some r ∧
      binary64.toRat (binary64.finite 1 0) = some hi ∧ r < hi := by
  have hq : (distr.runif exact_ops sample_unif_rand (sample_state 4 0 0 0) 1 1).1 = 1 := by
    norm_num [distr.runif, exact_ops, sample_unif_rand, sample_state, rng_state_t.get]
  have hb : (distr.runif binary64_ops sample_unif_rand_binary64
      (sample_state (2 ^ 63) 0 0 0) (binary64.finite 1 0) (binary64.finite 1 0)).1
        = binary64.finite (2 ^ 52) (-52) := by
    decide
  refine ⟨le_refl 1, ?_, hq, ?_, by decide, by decide, ?_, ?_, ?_, ?_⟩
  · norm_num [sample_unif_rand, sample_state, rng_state_t.get]
  · rw [hq]
    norm_num
  · rw [sample_draw_half]
    norm_num [binary64.toRat]
  · norm_num [binary64.toRat]
  · rw [hb]
    norm_num [binary64.toRat]
  · rw [hb]
    rintro ⟨r, hi, hr, hhi, hlt⟩
    norm_num [binary64.toRat] at hr hhi
    rw [← hr, ← hhi] at hlt
    exact lt_irrefl _ hlt

/-- C12, amended. `runif(state, min, max)` returns `u * (max - min) + min`, evaluated in
`real_t`, for the draw `u` of `unif_rand` on that state, and leaves the state as `unif_rand`
left it. For `u` in `[0, 1)` and `min <= max`, provided none of the three operations rounds
at these operands, the result lies in the closed interval `[min, max]`; it is below `max`
whenever `min < max`, and it is `min` when `min = max`. -/
theorem runif_range_of_exact_ops {W : Nat} {R K : Type} [LinearOrderedField K]
    (ops : real_ops R) (val : R → Option K) (unif_rand : rng_state_t W → R × rng_state_t W)
    (rng_state : rng_state_t W) (min max : R) (u lo hi : K)
    (hu : val (unif_rand rng_state).1 = some u) (hlo : val min = some lo)
    (hhi : val max = some hi) (h0 : 0 ≤ u) (h1 : u < 1) (hle : lo ≤ hi)
    (hsub : exact_at val ops.sub (fun a b => a - b) max min)
    (hmul : exact_at val ops.mul (fun a b => a * b) (unif_rand rng_state).1 (ops.sub max min))
    (hadd : exact_at val ops.add (fun a b => a + b)
      (ops.mul (unif_rand rng_state).1 (ops.sub max min)) min) :
    (distr.runif ops unif_rand rng_state min max).1
      = ops.add (ops.mul (unif_rand rng_state).1 (ops.sub max min)) min ∧
    (distr.runif ops unif_rand rng_state min max).2 = (unif_rand rng_state).2 ∧
    ∃ r, val (distr.runif ops unif_rand rng_state min max).1 = some r ∧
      r = u * (hi - lo) + lo ∧ lo ≤ r ∧ r ≤ hi ∧ (lo < hi → r < hi) ∧ (lo = hi → r = lo) := by
  have hd : 0 ≤ hi - lo := sub_nonneg.mpr hle
  have hc : 0 < 1 - u := by linarith
  have hp := mul_nonneg h0 hd
  have hq := mul_nonneg (le_of_lt hc) hd
  refine ⟨rfl, rfl, u * (hi - lo) + lo,
    runif_value_of_exact ops val unif_rand rng_state min max u lo hi hu hlo hhi hsub hmul hadd,
    rfl, ?_, ?_, ?_, ?_⟩
  · linarith
  · linarith
  · intro hlt
    have hd2 : 0 < hi - lo := sub_pos.mpr hlt
    have := mul_pos hc hd2
    linarith
  · intro heq
    rw [heq, sub_self, mul_zero, zero_add]

/-- Witness of C12 amended, in `double`: the draw `1/2` with bounds `1` and `3` rounds
nowhere and gives `2`. -/
theorem runif_range_of_exact_ops_witness :
    ∃ r : ℚ, binary64.toRat (distr.runif binary64_ops sample_unif_rand_binary64
        (sample_state (2 ^ 63) 0 0 0) (binary64.finite 1 0) (binary64.finite 3 0)).1 = some r ∧
      r = 1 / 2 * (3 - 1) + 1 ∧ 1 ≤ r ∧ r ≤ 3 ∧ ((1 : ℚ) < 3 → r < 3) ∧ ((1 : ℚ) = 3 → r = 1) :=
  (runif_range_of_exact_ops binary64_ops binary64.toRat sample_unif_rand_binary64
    (sample_state (2 ^ 63) 0 0 0) (binary64.finite 1 0) (binary64.finite 3 0) (1 / 2) 1 3
    (by rw [sample_draw_half]; norm_num [binary64.toRat])
    (by norm_num [binary64.toRat]) (by norm_num [binary64.toRat])
    (by norm_num) (by norm_num) (by norm_num)
    ⟨3, 1, by norm_num [binary64.toRat], by norm_num [binary64.toRat], by
      rw [show binary64_ops.sub (binary64.finite 3 0) (binary64.finite 1 0)
        = binary64.finite 2 0 by decide]
      norm_num [binary64.toRat]⟩
    ⟨1 / 2, 2, by rw [sample_draw_half]; norm_num [binary64.toRat], by
      rw [show binary64_ops.sub (binary64.finite 3 0) (binary64.finite 1 0)
        = binary64.finite 2 0 by decide]
      norm_num [binary64.toRat], by
      rw [show binary64_ops.mul
          (sample_unif_rand_binary64 (sample_state (2 ^ 63) 0 0 0)).1
          (binary64_ops.sub (binary64.finite 3 0) (binary64.finite 1 0))
        = binary64.finite (2 ^ 52) (-52) by decide]
      norm_num [binary64.toRat]⟩
    ⟨1, 1, by
      rw [show binary64_ops.mul
          (sample_unif_rand_binary64 (sample_state (2 ^ 63) 0 0 0)).1
          (binary64_ops.sub (binary64.finite 3 0) (binary64.finite 1 0))
        = binary64.finite (2 ^ 52) (-52) by decide]
      norm_num [binary64.toRat], by norm_num [binary64.toRat], by
      rw [show binary64_ops.add (binary64_ops.mul
          (sample_unif_rand_binary64 (sample_state (2 ^ 63) 0 0 0)).1
          (binary64_ops.sub (binary64.finite 3 0) (binary64.finite 1 0))) (binary64.finite 1 0)
        = binary64.finite (2 ^ 52) (-51) by decide]
      norm_num [binary64.toRat]⟩).2.2

/-- C14, as stated, fails on the code: with the draw `0` and the inverted bounds `1 > 0`,
`runif(state, 1, 0)` is not rejected and returns `0 * (0 - 1) + 1 = 1`, while
`runif(state, 0, 1)` on the same state returns `0 * (1 - 0) + 0 = 0`. Evaluated in `double`,
where no operation of the two evaluations rounds. -/
theorem runif_inverted_bounds_counterexample :
    (sample_unif_rand_binary64 (sample_state 0 0 0 0)).1.is_double = true ∧
    (binary64.finite 1 0).is_double = true ∧ (binary64.finite 0 0).is_double = true ∧
    binary64.toRat (binary64.finite 1 0) = some 1 ∧
    binary64.toRat (binary64.finite 0 0) = some 0 ∧ (1 : ℚ) > 0 ∧
    distr.runif_call binary64_ops sample_unif_rand_binary64 (sample_state 0 0 0 0)
        (binary64.finite 1 0) (binary64.finite 0 0)
      = Except.ok (distr.runif binary64_ops sample_unif_rand_binary64 (sample_state 0 0 0 0)
        (binary64.finite 1 0) (binary64.finite 0 0)) ∧
    binary64.toRat (distr.runif binary64_ops sample_unif_rand_binary64 (sample_state 0 0 0 0)
        (binary64.finite 1 0) (binary64.finite 0 0)).1 = some 1 ∧
    binary64.toRat (distr.runif binary64_ops sample_unif_rand_binary64 (sample_state 0 0 0 0)
        (binary64.finite 0 0) (binary64.finite 1 0)).1 = some 0 ∧
    ¬ ((∃ e, distr.runif_call binary64_ops sample_unif_rand_binary64 (sample_state 0 0 0 0)
          (binary64.finite 1 0) (binary64.finite 0 0) = Except.error e) ∨
        binary64.toRat (distr.runif binary64_ops sample_unif_rand_binary64
          (sample_state 0 0 0 0) (binary64.finite 1 0) (binary64.finite 0 0)).1
        = binary64.toRat (distr.runif binary64_ops sample_unif_rand_binary64
          (sample_state 0 0 0 0) (binary64.finite 0 0) (binary64.finite 1 0)).1) := by
  have h1 : (distr.runif binary64_ops sample_unif_rand_binary64 (sample_state 0 0 0 0)
      (binary64.finite 1 0) (binary64.finite 0 0)).1 = binary64.finite (2 ^ 52) (-52) := by
    decide
  have h2 : (distr.runif binary64_ops sample_unif_rand_binary64 (sample_state 0 0 0 0)
      (binary64.finite 0 0) (binary64.finite 1 0)).1 = binary64.finite 0 (-53) := by
    decide
  refine ⟨by decide, by decide, by decide, ?_, ?_, by norm_num, rfl, ?_, ?_, ?_⟩
  · norm_num [binary64.toRat]
  · norm_num [binary64.toRat]
  · rw [h1]
    norm_num [binary64.toRat]
  · rw [h2]
    norm_num [binary64.toRat]
  · rintro (⟨e, he⟩ | h)
    · cases he
    · rw [h1, h2] at h
      norm_num [binary64.toRat] at h

/-- C14, amended. For every state and every pair of bounds, `min > max` included,
`runif(state, min, max)` is not rejected and does not swap the bounds: the call completes
with `unif_rand(state) * (max - min) + min`, evaluated in `real_t` on the bounds as given,
and with the state as `unif_rand` left it; the call with the bounds exchanged completes with
`unif_rand(state) * (min - max) + max`. -/
theorem runif_inverted_bounds_not_rejected {W : Nat} {R : Type} (ops : real_ops R)
    (unif_rand : rng_state_t W → R × rng_state_t W) (rng_state : rng_state_t W)
    (min max : R) :
    distr.runif_call ops unif_rand rng_state min max
      = Except.ok (ops.add (ops.mul (unif_rand rng_state).1 (ops.sub max min)) min,
          (unif_rand rng_state).2) ∧
    (¬ ∃ e, distr.runif_call ops unif_rand rng_state min max = Except.error e) ∧
    distr.runif_call ops unif_rand rng_state max min
      = Except.ok (ops.add (ops.mul (unif_rand rng_state).1 (ops.sub min max)) max,
          (unif_rand rng_state).2) := by
  refine ⟨rfl, ?_, rfl⟩
  rintro ⟨e, he⟩
  cases he

end xoshiro
